import Mathlib

/-!
Verification of the merge/diff/plan core of the nco-control repository
(`packages/core/src`): the deep-merge algorithm, the schema-compatibility
gate, the field-level diff engine and the plan/compare orchestrators.

JSON-like configuration values are embedded as the inductive `JVal`;
JavaScript objects (`Record<string, unknown>`) are embedded as ordered
association lists `List (String × JVal)` (JavaScript objects have unique
keys and preserve insertion order).
-/

/-- A JSON value: the dynamic values handled by the configuration core. -/
inductive JVal where
  | null : JVal
  | bool (b : Bool) : JVal
  | num (n : Int) : JVal
  | str (s : String) : JVal
  | arr (xs : List JVal) : JVal
  | obj (fs : List (String × JVal)) : JVal

/-- A JavaScript object: an ordered association list of fields. -/
abbrev Obj := List (String × JVal)

mutual

/-- Structural (deep) equality of JSON values, as a boolean. -/
def jvalBEq : JVal → JVal → Bool
  | .null, .null => true
  | .bool a, .bool b => a == b
  | .num a, .num b => a == b
  | .str a, .str b => a == b
  | .arr xs, .arr ys => jlistBEq xs ys
  | .obj fs, .obj gs => jfieldsBEq fs gs
  | _, _ => false

/-- Structural equality of JSON value lists. -/
def jlistBEq : List JVal → List JVal → Bool
  | [], [] => true
  | x :: xs, y :: ys => jvalBEq x y && jlistBEq xs ys
  | _, _ => false

/-- Structural equality of field lists. -/
def jfieldsBEq : List (String × JVal) → List (String × JVal) → Bool
  | [], [] => true
  | (k, v) :: fs, (k', v') :: gs => k == k' && jvalBEq v v' && jfieldsBEq fs gs
  | _, _ => false

end

mutual

theorem jvalBEq_iff : ∀ a b : JVal, jvalBEq a b = true ↔ a = b
  | .null, b => by cases b <;> simp [jvalBEq]
  | .bool x, b => by cases b <;> simp [jvalBEq]
  | .num x, b => by cases b <;> simp [jvalBEq]
  | .str x, b => by cases b <;> simp [jvalBEq]
  | .arr xs, b => by
      cases b <;> simp [jvalBEq]
      exact jlistBEq_iff xs _
  | .obj fs, b => by
      cases b <;> simp [jvalBEq]
      exact jfieldsBEq_iff fs _

theorem jlistBEq_iff : ∀ xs ys : List JVal, jlistBEq xs ys = true ↔ xs = ys
  | [], ys => by cases ys <;> simp [jlistBEq]
  | x :: xs, ys => by
      cases ys with
      | nil => simp [jlistBEq]
      | cons y ys =>
          simp [jlistBEq, jvalBEq_iff x y, jlistBEq_iff xs ys]

theorem jfieldsBEq_iff :
    ∀ fs gs : List (String × JVal), jfieldsBEq fs gs = true ↔ fs = gs
  | [], gs => by cases gs <;> simp [jfieldsBEq]
  | (k, v) :: fs, gs => by
      cases gs with
      | nil => simp [jfieldsBEq]
      | cons p gs =>
          obtain ⟨k', v'⟩ := p
          simp [jfieldsBEq, jvalBEq_iff v v', jfieldsBEq_iff fs gs, and_assoc]

end

instance : DecidableEq JVal :=
  fun a b => decidable_of_iff _ (jvalBEq_iff a b)

/-- Property read `o[k]`: the first binding of key `k`, if any. -/
def lookupKey : Obj → String → Option JVal
  | [], _ => none
  | (k', v) :: rest, k => if k' = k then some v else lookupKey rest k

/-- The JavaScript `key in o` test. -/
def hasKey (o : Obj) (k : String) : Bool :=
  (lookupKey o k).isSome

example : lookupKey [("a", JVal.num 1)] "a" = some (JVal.num 1) := by decide
example : (JVal.arr [.num 1] = JVal.arr [.num 2]) = False := by decide

/-- The JavaScript `typeof` operator on embedded values
(`typeof null` and `typeof` of arrays and objects are all `"object"`). -/
def typeOf : JVal → String
  | .null => "object"
  | .bool _ => "boolean"
  | .num _ => "number"
  | .str _ => "string"
  | .arr _ => "object"
  | .obj _ => "object"

/-- `Array.isArray`. -/
def JVal.isArr : JVal → Bool
  | .arr _ => true
  | _ => false

mutual

/-- `cloneValue` from `merge/deep-merge.ts`: recursively clone a value. -/
def cloneValue : JVal → JVal
  | .null => .null
  | .bool b => .bool b
  | .num n => .num n
  | .str s => .str s
  | .arr xs => .arr (cloneList xs)
  | .obj fs => .obj (cloneFields fs)

/-- Clone of `value.map(cloneValue)` for arrays. -/
def cloneList : List JVal → List JVal
  | [] => []
  | x :: xs => cloneValue x :: cloneList xs

/-- Clone of the `Object.entries` loop for objects. -/
def cloneFields : List (String × JVal) → List (String × JVal)
  | [] => []
  | (k, v) :: fs => (k, cloneValue v) :: cloneFields fs

end

mutual

theorem cloneValue_id : ∀ v : JVal, cloneValue v = v
  | .null => rfl
  | .bool _ => rfl
  | .num _ => rfl
  | .str _ => rfl
  | .arr xs => by simp [cloneValue, cloneList_id xs]
  | .obj fs => by simp [cloneValue, cloneFields_id fs]

theorem cloneList_id : ∀ xs : List JVal, cloneList xs = xs
  | [] => rfl
  | x :: xs => by simp [cloneList, cloneValue_id x, cloneList_id xs]

theorem cloneFields_id : ∀ fs : List (String × JVal), cloneFields fs = fs
  | [] => rfl
  | (k, v) :: fs => by simp [cloneFields, cloneValue_id v, cloneFields_id fs]

end

/-- The second loop of `deepMerge`: add keys that only exist in the overlay.
`result` is the accumulated output of the first loop; an overlay key is
skipped when the result already has it or when its overlay value is `null`.
(JavaScript objects have unique keys, so reading the iterated entry's value
coincides with the source's `overlay[key]` property read.) -/
def addOverlayKeys : Obj → Obj → Obj
  | result, [] => result
  | result, (k, v) :: rest =>
    if hasKey result k then addOverlayKeys result rest
    else if v = .null then addOverlayKeys result rest
    else addOverlayKeys (result ++ [(k, cloneValue v)]) rest

mutual

/-- The first loop of `deepMerge` from `merge/deep-merge.ts`: walk the keys
of `base`; a key whose overlay value is `null` is dropped, a key absent from
the overlay keeps the (cloned) base value, and a key present in both is
merged with `mergeValues`. -/
def mergeBase : Obj → Obj → Obj
  | [], _ => []
  | (k, bv) :: rest, overlay =>
    match lookupKey overlay k with
    | some .null => mergeBase rest overlay
    | none => (k, cloneValue bv) :: mergeBase rest overlay
    | some ov => (k, mergeValues bv ov) :: mergeBase rest overlay

/-- `mergeValues` from `merge/deep-merge.ts`: type mismatch → overlay wins
(cloned); any array → overlay wins (cloned); two non-null objects → recursive
merge (the body of `deepMerge`, inlined here for the mutual recursion);
otherwise the overlay value wins. -/
def mergeValues : JVal → JVal → JVal
  | b, o =>
    if typeOf b ≠ typeOf o then cloneValue o
    else if b.isArr || o.isArr then cloneValue o
    else
      match b, o with
      | .obj bf, .obj ofs => .obj (addOverlayKeys (mergeBase bf ofs) ofs)
      | _, o => o

end

/-- `deepMerge` from `merge/deep-merge.ts`: first loop over the base keys,
then the overlay-only keys. -/
def deepMerge (base overlay : Obj) : Obj :=
  addOverlayKeys (mergeBase base overlay) overlay

theorem mergeValues_obj (bf ofs : Obj) :
    mergeValues (.obj bf) (.obj ofs) = .obj (deepMerge bf ofs) := by
  simp [mergeValues, deepMerge, typeOf, JVal.isArr]

example :
    deepMerge [("a", .num 1), ("b", .num 2)] [("a", .null)] = [("b", .num 2)] := by
  decide

example :
    deepMerge [("items", .arr [.num 1, .num 2, .num 3])] [("items", .arr [.num 4])]
      = [("items", .arr [.num 4])] := by decide

example :
    deepMerge [("items", .arr [.num 1, .num 2])] [("items", .arr [])]
      = [("items", .arr [])] := by decide

example :
    deepMerge [("a", .obj [("b", .num 1), ("c", .num 2)])] [("a", .obj [("b", .null)])]
      = [("a", .obj [("c", .num 2)])] := by decide

/-- The JSON type of a value, as the spec's reference merge rule speaks of
types (null, boolean, number, string, sequence, object map). -/
def jsonType : JVal → String
  | .null => "null"
  | .bool _ => "boolean"
  | .num _ => "number"
  | .str _ => "string"
  | .arr _ => "array"
  | .obj _ => "object"

/-- The spec's reference rule for a key present in both objects whose overlay
value is not `null`: different types → overlay wins; either side a sequence →
overlay sequence replaces wholesale; both non-null object maps → recurse;
otherwise the overlay scalar wins. -/
def refBothRule (bv ov : JVal) : JVal :=
  if jsonType bv ≠ jsonType ov then ov
  else if bv.isArr || ov.isArr then ov
  else
    match bv, ov with
    | .obj bf, .obj ofs => .obj (deepMerge bf ofs)
    | _, _ => ov

/-- The spec's reference per-key definition of the merge, over the union of
keys: a key absent from the overlay keeps the base value; a key whose overlay
value is `null` is omitted entirely; a key absent from the base takes the
(non-null) overlay value; a key present in both follows `refBothRule`. -/
def refMergeKey (base overlay : Obj) (k : String) : Option JVal :=
  match lookupKey base k, lookupKey overlay k with
  | _, some .null => none
  | some bv, none => some bv
  | none, some ov => some ov
  | none, none => none
  | some bv, some ov => some (refBothRule bv ov)

theorem mergeValues_refBothRule (bv ov : JVal) (h : ov ≠ .null) :
    mergeValues bv ov = refBothRule bv ov := by
  cases bv <;> cases ov <;>
    first
      | exact absurd rfl h
      | simp [mergeValues, refBothRule, typeOf, jsonType, JVal.isArr,
              cloneValue_id, deepMerge]

/-- What the first `deepMerge` loop produces for one looked-up key. -/
def mergedBaseLookup (bv? ov? : Option JVal) : Option JVal :=
  match bv? with
  | none => none
  | some bv =>
    match ov? with
    | some .null => none
    | none => some bv
    | some ov => some (mergeValues bv ov)

theorem lookupKey_mergeBase (base overlay : Obj) (k : String) :
    lookupKey (mergeBase base overlay) k =
      mergedBaseLookup (lookupKey base k) (lookupKey overlay k) := by
  induction base with
  | nil => simp [mergeBase, lookupKey, mergedBaseLookup]
  | cons p rest ih =>
    obtain ⟨k', bv⟩ := p
    by_cases hk : k' = k
    · subst hk
      cases hov : lookupKey overlay k' with
      | none =>
          simp [mergeBase, hov, lookupKey, mergedBaseLookup, cloneValue_id]
      | some ov =>
          cases ov <;>
            simp [mergeBase, hov, lookupKey, mergedBaseLookup, ih,
                  cloneValue_id]
          cases lookupKey rest k' <;> simp [mergedBaseLookup]
    · have hbase : lookupKey ((k', bv) :: rest) k = lookupKey rest k := by
        simp [lookupKey, hk]
      cases hov : lookupKey overlay k' with
      | none =>
          simp [mergeBase, hov, lookupKey, hk, hbase, ih]
      | some ov =>
          cases ov <;> simp [mergeBase, hov, lookupKey, hk, hbase, ih]

theorem lookupKey_eq_none_of_not_mem {o : Obj} {k : String}
    (h : k ∉ o.map Prod.fst) : lookupKey o k = none := by
  induction o with
  | nil => rfl
  | cons p rest ih =>
    obtain ⟨k0, v0⟩ := p
    simp only [List.map_cons, List.mem_cons] at h
    push_neg at h
    simp [lookupKey, Ne.symm h.1, ih h.2]

theorem lookupKey_append_single (r : Obj) (k' : String) (v : JVal) (k : String) :
    lookupKey (r ++ [(k', v)]) k =
      match lookupKey r k with
      | some w => some w
      | none => if k' = k then some v else none := by
  induction r with
  | nil => simp [lookupKey]
  | cons p rest ih =>
    obtain ⟨k0, v0⟩ := p
    by_cases h : k0 = k <;> simp [lookupKey, h, ih]

/-- What `deepMerge`'s second loop leaves for one looked-up key: a key the
first loop produced is untouched; otherwise a non-null overlay value is
appended and a null overlay value is skipped. -/
def overlayOnlyLookup (r? ov? : Option JVal) : Option JVal :=
  match r? with
  | some w => some w
  | none =>
    match ov? with
    | some .null => none
    | some ov => some ov
    | none => none

theorem lookupKey_eq_none_of_not_hasKey {o : Obj} {k : String}
    (h : ¬ hasKey o k) : lookupKey o k = none := by
  cases h2 : lookupKey o k with
  | none => rfl
  | some w => exact absurd (by simp [hasKey, h2]) h

theorem lookupKey_addOverlayKeys (overlay : Obj) (result : Obj) (k : String)
    (h : (overlay.map Prod.fst).Nodup) :
    lookupKey (addOverlayKeys result overlay) k =
      overlayOnlyLookup (lookupKey result k) (lookupKey overlay k) := by
  induction overlay generalizing result with
  | nil =>
      cases hr : lookupKey result k <;>
        simp [addOverlayKeys, lookupKey, overlayOnlyLookup, hr]
  | cons p rest ih =>
    obtain ⟨k', v⟩ := p
    rw [List.map_cons, List.nodup_cons] at h
    have hrest : lookupKey rest k' = none := lookupKey_eq_none_of_not_mem h.1
    by_cases hres : hasKey result k'
    · -- key already produced by the first loop: skipped
      rw [show addOverlayKeys result ((k', v) :: rest) = addOverlayKeys result rest
            from by simp [addOverlayKeys, hres], ih _ h.2]
      by_cases hk : k' = k
      · subst hk
        obtain ⟨w, hw⟩ := Option.isSome_iff_exists.mp (by simpa [hasKey] using hres)
        simp [overlayOnlyLookup, hw, lookupKey]
      · simp [lookupKey, hk]
    · by_cases hnull : v = .null
      · -- null overlay value: skipped
        subst hnull
        rw [show addOverlayKeys result ((k', .null) :: rest) = addOverlayKeys result rest
              from by simp [addOverlayKeys, hres], ih _ h.2]
        by_cases hk : k' = k
        · subst hk
          have hresn : lookupKey result k' = none :=
            lookupKey_eq_none_of_not_hasKey hres
          simp [overlayOnlyLookup, hresn, lookupKey, hrest]
        · simp [lookupKey, hk]
      · -- fresh non-null overlay key: appended
        rw [show addOverlayKeys result ((k', v) :: rest)
              = addOverlayKeys (result ++ [(k', cloneValue v)]) rest
              from by simp [addOverlayKeys, hres, hnull], ih _ h.2,
            cloneValue_id]
        by_cases hk : k' = k
        · subst hk
          have hresn : lookupKey result k' = none :=
            lookupKey_eq_none_of_not_hasKey hres
          rw [lookupKey_append_single]
          cases v <;>
            simp_all [overlayOnlyLookup, lookupKey, hrest]
        · rw [lookupKey_append_single]
          cases hr : lookupKey result k <;> simp [lookupKey, hk, hr]

/-- Claim C2: for every key, the value `deepMerge` gives it is exactly the
spec's reference per-key definition (assuming the overlay object, like every
JavaScript object, has no duplicate keys). -/
theorem deepMerge_matches_refMergeKey (base overlay : Obj) (k : String)
    (h : (overlay.map Prod.fst).Nodup) :
    lookupKey (deepMerge base overlay) k = refMergeKey base overlay k := by
  unfold deepMerge
  rw [lookupKey_addOverlayKeys _ _ _ h, lookupKey_mergeBase]
  cases hb : lookupKey base k with
  | none =>
      cases ho : lookupKey overlay k with
      | none => simp [mergedBaseLookup, overlayOnlyLookup, refMergeKey, hb, ho]
      | some ov =>
          cases ov <;>
            simp [mergedBaseLookup, overlayOnlyLookup, refMergeKey, hb, ho]
  | some bv =>
      cases ho : lookupKey overlay k with
      | none => simp [mergedBaseLookup, overlayOnlyLookup, refMergeKey, hb, ho]
      | some ov =>
          cases ov <;>
            simp [mergedBaseLookup, overlayOnlyLookup, refMergeKey, hb, ho] <;>
            exact mergeValues_refBothRule bv _ (by intro hcon; cases hcon)

/-- Witness for C2 at concrete inputs. -/
theorem deepMerge_matches_refMergeKey_witness :
    (([("a", JVal.obj [("x", .num 1)]), ("b", .null), ("c", .num 7)] : Obj).map
        Prod.fst).Nodup ∧
      lookupKey
          (deepMerge [("a", .obj [("y", .num 2)]), ("b", .num 3)]
            [("a", JVal.obj [("x", .num 1)]), ("b", .null), ("c", .num 7)]) "a"
        = refMergeKey [("a", .obj [("y", .num 2)]), ("b", .num 3)]
            [("a", JVal.obj [("x", .num 1)]), ("b", .null), ("c", .num 7)] "a" :=
  ⟨by decide,
   deepMerge_matches_refMergeKey
     [("a", .obj [("y", .num 2)]), ("b", .num 3)]
     [("a", JVal.obj [("x", .num 1)]), ("b", .null), ("c", .num 7)] "a"
     (by decide)⟩

/-- Kinds of change the underlying structural diff reports for one array
index (`d.item` of an array-kind diff). -/
inductive RawItem where
  | N (rhs : JVal) : RawItem
  | D (lhs : JVal) : RawItem
  | E (lhs rhs : JVal) : RawItem
deriving DecidableEq

/-- A raw structural difference, as the underlying diff primitive reports it:
new (`N`), deleted (`D`), edited (`E`), or an array-index change (`A`). -/
inductive RawDiff where
  | N (path : List String) (rhs : JVal) : RawDiff
  | D (path : List String) (lhs : JVal) : RawDiff
  | E (path : List String) (lhs rhs : JVal) : RawDiff
  | A (path : List String) (index : Nat) (item : RawItem) : RawDiff
deriving DecidableEq

/-- The path of a raw difference. -/
def RawDiff.path : RawDiff → List String
  | .N p _ => p
  | .D p _ => p
  | .E p _ _ => p
  | .A p _ _ => p

/-- Fields present only on the right-hand side, each reported as new. -/
def diffAdds (pfx : List String) (lfs rfs : Obj) : List RawDiff :=
  (rfs.filter (fun p => !hasKey lfs p.1)).map (fun p => .N (pfx ++ [p.1]) p.2)

/-- Right-hand array elements beyond the left-hand length, reported as
array-index additions. -/
def arrAdds (pfx : List String) : Nat → List JVal → List RawDiff
  | _, [] => []
  | i, y :: ys => .A pfx i (.N y) :: arrAdds pfx (i + 1) ys

mutual

/-- Modelled from the spec: the structural diff of two values performed by
the `deep-diff` npm library, which is a dependency and not part of this
repository's sources. Spec §4.3: a field present in both sides with a
differing value is a change (edit); nested objects recurse with the key
appended to the path; array element changes carry the element index as an
additional path segment, and array element additions/removals follow the
same typing scoped to that index. The relative order inside one array diff
is document order in this model; no claim depends on it. -/
def diffVal (pfx : List String) : JVal → JVal → List RawDiff
  | .obj lfs, .obj rfs => diffFieldsL pfx lfs rfs ++ diffAdds pfx lfs rfs
  | .arr xs, .arr ys => diffArr pfx 0 xs ys
  | l, r => if l = r then [] else [.E pfx l r]

/-- Modelled from the spec: the left-hand key walk of the structural diff —
a key absent from the right-hand side is a removal, a key present in both
recurses. -/
def diffFieldsL (pfx : List String) : Obj → Obj → List RawDiff
  | [], _ => []
  | (k, lv) :: rest, rfs =>
    (match lookupKey rfs k with
     | none => [.D (pfx ++ [k]) lv]
     | some rv => diffVal (pfx ++ [k]) lv rv) ++ diffFieldsL pfx rest rfs

/-- Modelled from the spec: the index-wise walk of two arrays — common
indices recurse with the index appended to the path, surplus elements are
array-index additions or removals. -/
def diffArr (pfx : List String) : Nat → List JVal → List JVal → List RawDiff
  | i, [], ys => arrAdds pfx i ys
  | i, x :: xs, y :: ys => diffVal (pfx ++ [toString i]) x y ++ diffArr pfx (i + 1) xs ys
  | i, x :: xs, [] => .A pfx i (.D x) :: diffArr pfx (i + 1) xs []

end

/-- Modelled from the spec: `deepDiff(lhs, rhs)` of the `deep-diff` library
on two objects (the library returns `undefined` when there is no difference;
the `differ.ts` caller turns that into the empty list, so the model returns
the list directly). -/
def deepDiff (lhs rhs : Obj) : List RawDiff :=
  diffFieldsL [] lhs rhs ++ diffAdds [] lhs rhs

/-- The three field-diff types of `plan/types.ts`. -/
inductive DiffType where
  | add : DiffType
  | remove : DiffType
  | change : DiffType
deriving DecidableEq

/-- `FieldDiff` from `plan/types.ts`. Absent optional values are `none`. -/
structure FieldDiff where
  path : String
  type : DiffType
  oldValue : Option JVal := none
  newValue : Option JVal := none
deriving DecidableEq

/-- `isRelevantDiff` from `diff/differ.ts`: drop any diff whose path starts
at the top-level key `$schema`, regardless of change kind. -/
def isRelevantDiff (d : RawDiff) : Bool :=
  match d.path with
  | k :: _ => !(k == "$schema")
  | [] => true

/-- Join a raw path into the JSON-pointer-style string of `convertDiff`. -/
def joinPath (p : List String) : String :=
  "/" ++ String.intercalate "/" p

/-- `convertDiff` from `diff/differ.ts`: translate a raw difference into a
`FieldDiff` (array-kind diffs get the element index appended to the path). -/
def convertDiff : RawDiff → FieldDiff
  | .N p rhs => { path := joinPath p, type := .add, newValue := some rhs }
  | .D p lhs => { path := joinPath p, type := .remove, oldValue := some lhs }
  | .E p lhs rhs =>
      { path := joinPath p, type := .change, oldValue := some lhs, newValue := some rhs }
  | .A p i item =>
      let arrayPath := joinPath p ++ "/" ++ toString i
      match item with
      | .N rhs => { path := arrayPath, type := .add, newValue := some rhs }
      | .D lhs => { path := arrayPath, type := .remove, oldValue := some lhs }
      | .E lhs rhs =>
          { path := arrayPath, type := .change, oldValue := some lhs, newValue := some rhs }

/-- `diffConfigs` from `diff/differ.ts`: raw-diff `remote` against `local`,
filter the `$schema` diffs out, convert the rest. -/
def diffConfigs (localObj remote : Obj) : List FieldDiff :=
  ((deepDiff remote localObj).filter isRelevantDiff).map convertDiff

/-- `configsEqual` from `diff/differ.ts`. -/
def configsEqual (localObj remote : Obj) : Bool :=
  (diffConfigs localObj remote).length == 0

example :
    diffConfigs [("a", .num 1), ("b", .num 2)]
        [("id", .str "x"), ("a", .num 1), ("b", .num 2)]
      = [{ path := "/id", type := .remove, oldValue := some (.str "x") }] := by
  decide

example :
    diffConfigs [("a", .num 1), ("b", .num 2)] []
      = [{ path := "/a", type := .add, newValue := some (.num 1) },
         { path := "/b", type := .add, newValue := some (.num 2) }] := by
  decide

example :
    diffConfigs [("items", .arr [.num 1, .num 2])] [("items", .arr [.num 1, .num 3, .num 9])]
      = [{ path := "/items/1", type := .change, oldValue := some (.num 3),
           newValue := some (.num 2) },
         { path := "/items/2", type := .remove, oldValue := some (.num 9) }] := by
  decide

/-- The fields of `ChannelConfig` (`types/index.ts`) that the planner reads:
the file-derived name, the optional `id` taken from the merged object, and
the merged (secret-substituted) configuration object. -/
structure ChannelConfig where
  name : String
  id : Option String
  merged : Obj

/-- A channel with its loaded configurations (`types/index.ts`). -/
structure Channel where
  name : String
  configs : List ChannelConfig

/-- The `status` values of a `ConfigPlan` (`plan/types.ts`). -/
inductive PlanStatus where
  | create : PlanStatus
  | update : PlanStatus
  | unchanged : PlanStatus
deriving DecidableEq

/-- `ConfigPlan` from `plan/types.ts`. -/
structure ConfigPlan where
  name : String
  status : PlanStatus
  diffs : List FieldDiff
deriving DecidableEq

/-- `ChannelPlan` from `plan/types.ts`. -/
structure ChannelPlan where
  channel : String
  existsRemotely : Bool
  configs : List ConfigPlan
deriving DecidableEq

/-- `PlanSummary` from `plan/types.ts`. -/
structure PlanSummary where
  creates : Nat
  updates : Nat
  unchanged : Nat
  unmanaged : Nat
deriving DecidableEq

/-- `Plan` from `plan/types.ts`, without the `merchant` and `timestamp`
strings (those are copied verbatim from project config and the clock and
carry no logic). -/
structure Plan where
  channels : List ChannelPlan
  summary : PlanSummary
deriving DecidableEq

/-- JavaScript `Map.get` for a map built by repeated `Map.set` over an
association list: the last binding of a key wins. -/
def mapGet (m : List (String × Obj)) (k : String) : Option Obj :=
  match m with
  | [] => none
  | (k', v) :: rest =>
    match mapGet rest k with
    | some w => some w
    | none => if k' = k then some v else none

/-- `generateConfigPlan` from `plan/service.ts`: resolve the lookup key as
`id ?? name`; no remote match → `create` with diffs against the empty
object; a match with no diffs → `unchanged`; otherwise `update`. -/
def generateConfigPlan (localConfig : ChannelConfig)
    (remoteConfigs : List (String × Obj)) : ConfigPlan :=
  let configId := localConfig.id.getD localConfig.name
  match mapGet remoteConfigs configId with
  | none =>
      { name := localConfig.name, status := .create,
        diffs := diffConfigs localConfig.merged [] }
  | some remoteConfig =>
      let diffs := diffConfigs localConfig.merged remoteConfig
      if diffs.isEmpty then
        { name := localConfig.name, status := .unchanged, diffs := [] }
      else
        { name := localConfig.name, status := .update, diffs := diffs }

/-- A remote configuration returned by the Configuration API: an `id` plus
the full object (`api/types.ts`). -/
structure RemoteConfig where
  id : String
  obj : Obj

/-- A failure of a remote fetch: an `ApiError` carrying an HTTP status code,
or any other thrown value (`api/client.ts`). -/
inductive FetchError where
  | api (message : String) (statusCode : Nat) : FetchError
  | other (message : String) : FetchError
deriving DecidableEq

/-- The remote-fetch step of `generateChannelPlan` from `plan/service.ts`:
when the channel exists remotely its config list is fetched and keyed by id;
the catch block rethrows only an `ApiError` whose status is not 404 — a 404
leaves the remote map empty, and (as the `instanceof ApiError` guard is
false) so does any non-`ApiError` failure. -/
def fetchRemoteConfigsE (channelName : String) (existsRemotely : Bool)
    (fetched : Except FetchError (List RemoteConfig)) :
    Except String (List (String × Obj)) :=
  if existsRemotely then
    match fetched with
    | .ok configs => .ok (configs.map fun c => (c.id, c.obj))
    | .error (.api msg code) =>
        if code ≠ 404 then
          .error ("Failed to list configs for channel '" ++ channelName ++ "': " ++ msg)
        else .ok []
    | .error (.other _) => .ok []
  else .ok []

/-- `generateChannelPlan` from `plan/service.ts`: fetch the remote configs
(non-fatally for a 404), then plan each local config against them. -/
def generateChannelPlan (channel : Channel) (existsRemotely : Bool)
    (fetched : Except FetchError (List RemoteConfig)) :
    Except String ChannelPlan :=
  match fetchRemoteConfigsE channel.name existsRemotely fetched with
  | .error e => .error e
  | .ok remoteConfigs =>
      .ok { channel := channel.name, existsRemotely := existsRemotely,
            configs := channel.configs.map fun lc => generateConfigPlan lc remoteConfigs }

/-- `calculateSummary` from `plan/service.ts`: status counts over every
config plan, and the count of remote channel names with no local channel of
that name. -/
def calculateSummary (channelPlans : List ChannelPlan)
    (remoteChannels : List String) (localChannels : List Channel) : PlanSummary :=
  let allConfigs := (channelPlans.map (·.configs)).flatten
  let localChannelNames := localChannels.map (·.name)
  { creates := allConfigs.countP (fun c => c.status == .create),
    updates := allConfigs.countP (fun c => c.status == .update),
    unchanged := allConfigs.countP (fun c => c.status == .unchanged),
    unmanaged :=
      (remoteChannels.filter (fun n => !localChannelNames.contains n)).length }

/-- JavaScript `new Set(xs)` as a list: keep the first occurrence of each
element. `seen` accumulates the elements already kept. -/
def dedupAcc (seen : List String) : List String → List String
  | [] => []
  | x :: xs =>
    if seen.contains x then dedupAcc seen xs
    else x :: dedupAcc (x :: seen) xs

/-- The distinct remote channel names, in first-seen order. -/
def dedupFirst (l : List String) : List String :=
  dedupAcc [] l

/-- `PlanOptions` from `plan/service.ts` (the `verbose` flag is
presentation-only). -/
structure PlanOptions where
  channel : Option String := none

/-- The per-channel loop of `generatePlan`: plan each channel in order; the
first fatal error aborts the whole run. -/
def traverseChannelPlans (remoteChannels : List String)
    (fetchConfigs : String → Except FetchError (List RemoteConfig)) :
    List Channel → Except String (List ChannelPlan)
  | [] => .ok []
  | ch :: rest =>
    match generateChannelPlan ch (remoteChannels.contains ch.name)
        (fetchConfigs ch.name) with
    | .error e => .error e
    | .ok p =>
      match traverseChannelPlans remoteChannels fetchConfigs rest with
      | .error e => .error e
      | .ok ps => .ok (p :: ps)

/-- Steps 2 and 5–7 of `generatePlan` from `plan/service.ts`, with the I/O
collaborators passed in: `channels0` are the discovered, loaded and
secret-substituted local channels (steps 1, 3 and 4 — validation, loading
and secret substitution — abort before this point on failure and involve no
planning logic); `remoteListing` is the result of `client.listChannels()`
(both an `ApiError` and any other failure there are rethrown as fatal);
`fetchConfigs` is `client.listConfigs` per channel. -/
def generatePlanCore (channels0 : List Channel) (options : PlanOptions)
    (remoteListing : Except FetchError (List String))
    (fetchConfigs : String → Except FetchError (List RemoteConfig)) :
    Except String Plan :=
  let channelsE : Except String (List Channel) :=
    match options.channel with
    | none => .ok channels0
    | some c =>
        let filtered := channels0.filter (fun ch => ch.name = c)
        if filtered.isEmpty then .error ("Channel '" ++ c ++ "' not found")
        else .ok filtered
  match channelsE with
  | .error e => .error e
  | .ok channels =>
    match remoteListing with
    | .error (.api msg _) => .error ("Failed to list remote channels: " ++ msg)
    | .error (.other msg) => .error msg
    | .ok remoteChannelList =>
        let remoteChannels := dedupFirst remoteChannelList
        match traverseChannelPlans remoteChannels fetchConfigs channels with
        | .error e => .error e
        | .ok channelPlans =>
            .ok { channels := channelPlans,
                  summary := calculateSummary channelPlans remoteChannels channels }

mutual

/-- Recursive well-formedness of a JSON value: every object it contains has
pairwise-distinct keys (true of every value parsed from YAML/JSON). -/
def jvalWF : JVal → Bool
  | .null => true
  | .bool _ => true
  | .num _ => true
  | .str _ => true
  | .arr xs => jlistWF xs
  | .obj fs => jfieldsWF fs

/-- Well-formedness of a list of JSON values. -/
def jlistWF : List JVal → Bool
  | [] => true
  | x :: xs => jvalWF x && jlistWF xs

/-- Well-formedness of an object's fields: no key repeats, values well
formed. -/
def jfieldsWF : Obj → Bool
  | [] => true
  | (k, v) :: fs => !hasKey fs k && jvalWF v && jfieldsWF fs

end

theorem hasKey_of_mem {fs : Obj} {p : String × JVal} (h : p ∈ fs) :
    hasKey fs p.1 = true := by
  induction fs with
  | nil => cases h
  | cons q rest ih =>
    obtain ⟨k, v⟩ := q
    rcases List.mem_cons.mp h with rfl | h2
    · simp [hasKey, lookupKey]
    · by_cases hk : k = p.1
      · simp [hasKey, lookupKey, hk]
      · simpa [hasKey, lookupKey, hk] using ih h2

theorem lookup_self_of_wf {fs : Obj} (h : jfieldsWF fs = true) :
    ∀ p ∈ fs, lookupKey fs p.1 = some p.2 ∧ jvalWF p.2 = true := by
  induction fs with
  | nil => intro p hp; cases hp
  | cons q rest ih =>
    obtain ⟨k, v⟩ := q
    rw [jfieldsWF, Bool.and_eq_true, Bool.and_eq_true] at h
    intro p hp
    rcases List.mem_cons.mp hp with rfl | h2
    · simp [lookupKey, h.1.2]
    · have hk : k ≠ p.1 := by
        intro heq
        subst heq
        have := hasKey_of_mem h2
        simp [this] at h
      have := ih h.2 p h2
      simpa [lookupKey, hk] using this


theorem arrAdds_path {pfx : List String} {i : Nat} {ys : List JVal}
    {d : RawDiff} (h : d ∈ arrAdds pfx i ys) : d.path = pfx := by
  induction ys generalizing i with
  | nil => cases h
  | cons y ys ih =>
    rcases List.mem_cons.mp h with rfl | h2
    · rfl
    · exact ih h2

mutual

theorem diffVal_path_ext :
    ∀ (pfx : List String) (l r : JVal), ∀ d ∈ diffVal pfx l r,
      ∃ rest, d.path = pfx ++ rest
  | pfx, .null, r => by
      intro d hd
      cases r with
      | null => simp [diffVal] at hd
      | bool b => simp [diffVal] at hd; subst hd; exact ⟨[], by simp [RawDiff.path]⟩
      | num n => simp [diffVal] at hd; subst hd; exact ⟨[], by simp [RawDiff.path]⟩
      | str s => simp [diffVal] at hd; subst hd; exact ⟨[], by simp [RawDiff.path]⟩
      | arr ys => simp [diffVal] at hd; subst hd; exact ⟨[], by simp [RawDiff.path]⟩
      | obj rfs => simp [diffVal] at hd; subst hd; exact ⟨[], by simp [RawDiff.path]⟩
  | pfx, .bool b, r => by
      intro d hd
      cases r with
      | bool b' =>
          simp [diffVal] at hd
          obtain ⟨-, rfl⟩ := hd
          exact ⟨[], by simp [RawDiff.path]⟩
      | null => simp [diffVal] at hd; subst hd; exact ⟨[], by simp [RawDiff.path]⟩
      | num n => simp [diffVal] at hd; subst hd; exact ⟨[], by simp [RawDiff.path]⟩
      | str s => simp [diffVal] at hd; subst hd; exact ⟨[], by simp [RawDiff.path]⟩
      | arr ys => simp [diffVal] at hd; subst hd; exact ⟨[], by simp [RawDiff.path]⟩
      | obj rfs => simp [diffVal] at hd; subst hd; exact ⟨[], by simp [RawDiff.path]⟩
  | pfx, .num n, r => by
      intro d hd
      cases r with
      | num m =>
          simp [diffVal] at hd
          obtain ⟨-, rfl⟩ := hd
          exact ⟨[], by simp [RawDiff.path]⟩
      | null => simp [diffVal] at hd; subst hd; exact ⟨[], by simp [RawDiff.path]⟩
      | bool b => simp [diffVal] at hd; subst hd; exact ⟨[], by simp [RawDiff.path]⟩
      | str s => simp [diffVal] at hd; subst hd; exact ⟨[], by simp [RawDiff.path]⟩
      | arr ys => simp [diffVal] at hd; subst hd; exact ⟨[], by simp [RawDiff.path]⟩
      | obj rfs => simp [diffVal] at hd; subst hd; exact ⟨[], by simp [RawDiff.path]⟩
  | pfx, .str s, r => by
      intro d hd
      cases r with
      | str t =>
          simp [diffVal] at hd
          obtain ⟨-, rfl⟩ := hd
          exact ⟨[], by simp [RawDiff.path]⟩
      | null => simp [diffVal] at hd; subst hd; exact ⟨[], by simp [RawDiff.path]⟩
      | bool b => simp [diffVal] at hd; subst hd; exact ⟨[], by simp [RawDiff.path]⟩
      | num m => simp [diffVal] at hd; subst hd; exact ⟨[], by simp [RawDiff.path]⟩
      | arr ys => simp [diffVal] at hd; subst hd; exact ⟨[], by simp [RawDiff.path]⟩
      | obj rfs => simp [diffVal] at hd; subst hd; exact ⟨[], by simp [RawDiff.path]⟩
  | pfx, .arr xs, r => by
      intro d hd
      cases r with
      | arr ys =>
          rw [show diffVal pfx (.arr xs) (.arr ys) = diffArr pfx 0 xs ys from rfl] at hd
          exact diffArr_path_ext pfx 0 xs ys d hd
      | null => simp [diffVal] at hd; subst hd; exact ⟨[], by simp [RawDiff.path]⟩
      | bool b => simp [diffVal] at hd; subst hd; exact ⟨[], by simp [RawDiff.path]⟩
      | num m => simp [diffVal] at hd; subst hd; exact ⟨[], by simp [RawDiff.path]⟩
      | str t => simp [diffVal] at hd; subst hd; exact ⟨[], by simp [RawDiff.path]⟩
      | obj rfs => simp [diffVal] at hd; subst hd; exact ⟨[], by simp [RawDiff.path]⟩
  | pfx, .obj lfs, r => by
      intro d hd
      cases r with
      | obj rfs =>
          rw [show diffVal pfx (.obj lfs) (.obj rfs)
                = diffFieldsL pfx lfs rfs ++ diffAdds pfx lfs rfs from rfl] at hd
          rcases List.mem_append.mp hd with h1 | h2
          · exact diffFieldsL_path_ext pfx lfs rfs d h1
          · rw [diffAdds] at h2
            obtain ⟨p, -, rfl⟩ := List.mem_map.mp h2
            exact ⟨[p.1], rfl⟩
      | null => simp [diffVal] at hd; subst hd; exact ⟨[], by simp [RawDiff.path]⟩
      | bool b => simp [diffVal] at hd; subst hd; exact ⟨[], by simp [RawDiff.path]⟩
      | num m => simp [diffVal] at hd; subst hd; exact ⟨[], by simp [RawDiff.path]⟩
      | str t => simp [diffVal] at hd; subst hd; exact ⟨[], by simp [RawDiff.path]⟩
      | arr ys => simp [diffVal] at hd; subst hd; exact ⟨[], by simp [RawDiff.path]⟩

theorem diffFieldsL_path_ext :
    ∀ (pfx : List String) (lfs rfs : Obj), ∀ d ∈ diffFieldsL pfx lfs rfs,
      ∃ rest, d.path = pfx ++ rest
  | pfx, [], rfs => by intro d hd; cases hd
  | pfx, (k, lv) :: rest, rfs => by
      intro d hd
      rw [show diffFieldsL pfx ((k, lv) :: rest) rfs
            = (match lookupKey rfs k with
               | none => [.D (pfx ++ [k]) lv]
               | some rv => diffVal (pfx ++ [k]) lv rv) ++ diffFieldsL pfx rest rfs
            from rfl] at hd
      rcases List.mem_append.mp hd with h1 | h2
      · cases hl : lookupKey rfs k with
        | none =>
            rw [hl] at h1
            rcases List.mem_singleton.mp h1 with rfl
            exact ⟨[k], rfl⟩
        | some rv =>
            rw [hl] at h1
            obtain ⟨t, ht⟩ := diffVal_path_ext (pfx ++ [k]) lv rv d h1
            exact ⟨[k] ++ t, by simp [ht]⟩
      · exact diffFieldsL_path_ext pfx rest rfs d h2

theorem diffArr_path_ext :
    ∀ (pfx : List String) (i : Nat) (xs ys : List JVal), ∀ d ∈ diffArr pfx i xs ys,
      ∃ rest, d.path = pfx ++ rest
  | pfx, i, [], ys => by
      intro d hd
      rw [show diffArr pfx i [] ys = arrAdds pfx i ys from rfl] at hd
      exact ⟨[], by simp [arrAdds_path hd]⟩
  | pfx, i, x :: xs, y :: ys => by
      intro d hd
      rw [show diffArr pfx i (x :: xs) (y :: ys)
            = diffVal (pfx ++ [toString i]) x y ++ diffArr pfx (i + 1) xs ys
            from rfl] at hd
      rcases List.mem_append.mp hd with h1 | h2
      · obtain ⟨t, ht⟩ := diffVal_path_ext (pfx ++ [toString i]) x y d h1
        exact ⟨[toString i] ++ t, by simp [ht]⟩
      · exact diffArr_path_ext pfx (i + 1) xs ys d h2
  | pfx, i, x :: xs, [] => by
      intro d hd
      rw [show diffArr pfx i (x :: xs) []
            = .A pfx i (.D x) :: diffArr pfx (i + 1) xs [] from rfl] at hd
      rcases List.mem_cons.mp hd with rfl | h2
      · exact ⟨[], by simp [RawDiff.path]⟩
      · exact diffArr_path_ext pfx (i + 1) xs [] d h2

end

theorem diffAdds_self (pfx : List String) (fs : Obj) : diffAdds pfx fs fs = [] := by
  have h : fs.filter (fun p => !hasKey fs p.1) = [] := by
    rw [List.filter_eq_nil_iff]
    intro p hp
    simp [hasKey_of_mem hp]
  rw [diffAdds, h]
  rfl

mutual

theorem diffVal_self :
    ∀ (pfx : List String) (v : JVal), jvalWF v = true → diffVal pfx v v = []
  | pfx, .null, _ => by simp [diffVal]
  | pfx, .bool b, _ => by simp [diffVal]
  | pfx, .num n, _ => by simp [diffVal]
  | pfx, .str s, _ => by simp [diffVal]
  | pfx, .arr xs, h => by
      rw [show diffVal pfx (.arr xs) (.arr xs) = diffArr pfx 0 xs xs from rfl]
      exact diffArr_self pfx 0 xs (by simpa [jvalWF] using h)
  | pfx, .obj fs, h => by
      rw [show diffVal pfx (.obj fs) (.obj fs)
            = diffFieldsL pfx fs fs ++ diffAdds pfx fs fs from rfl,
          diffFieldsL_self_aux pfx fs fs
            (lookup_self_of_wf (by simpa [jvalWF] using h)),
          diffAdds_self]
      rfl

theorem diffArr_self :
    ∀ (pfx : List String) (i : Nat) (xs : List JVal), jlistWF xs = true →
      diffArr pfx i xs xs = []
  | pfx, i, [], _ => by
      rw [show diffArr pfx i ([] : List JVal) [] = arrAdds pfx i [] from rfl]
      rfl
  | pfx, i, x :: xs, h => by
      rw [jlistWF, Bool.and_eq_true] at h
      rw [show diffArr pfx i (x :: xs) (x :: xs)
            = diffVal (pfx ++ [toString i]) x x ++ diffArr pfx (i + 1) xs xs from rfl,
          diffVal_self _ x h.1, diffArr_self pfx (i + 1) xs h.2]
      rfl

theorem diffFieldsL_self_aux :
    ∀ (pfx : List String) (lfs rfs : Obj),
      (∀ p ∈ lfs, lookupKey rfs p.1 = some p.2 ∧ jvalWF p.2 = true) →
      diffFieldsL pfx lfs rfs = []
  | pfx, [], rfs, _ => rfl
  | pfx, (k, lv) :: rest, rfs, h => by
      have h1 := h (k, lv) (List.mem_cons_self _ _)
      have hstep : diffFieldsL pfx ((k, lv) :: rest) rfs
          = diffVal (pfx ++ [k]) lv lv ++ diffFieldsL pfx rest rfs := by
        rw [show diffFieldsL pfx ((k, lv) :: rest) rfs
              = (match lookupKey rfs k with
                 | none => [.D (pfx ++ [k]) lv]
                 | some rv => diffVal (pfx ++ [k]) lv rv)
                ++ diffFieldsL pfx rest rfs from rfl,
            h1.1]
      rw [hstep, diffVal_self _ lv h1.2,
          diffFieldsL_self_aux pfx rest rfs
            (fun p hp => h p (List.mem_cons_of_mem _ hp))]
      rfl

end

/-- An object with its top-level `$schema` entries removed. -/
def eraseSchema (o : Obj) : Obj :=
  o.filter (fun p => p.1 != "$schema")

theorem lookupKey_eraseSchema {o : Obj} {k : String} (hk : k ≠ "$schema") :
    lookupKey (eraseSchema o) k = lookupKey o k := by
  induction o with
  | nil => rfl
  | cons p rest ih =>
    obtain ⟨k0, v0⟩ := p
    by_cases h0 : k0 = "$schema"
    · subst h0
      have hne : ¬ ("$schema" = k) := fun h => hk h.symm
      simp [eraseSchema, lookupKey, hne, List.filter_cons] at ih ⊢
      exact ih
    · simp [eraseSchema, List.filter_cons, h0, lookupKey] at ih ⊢
      by_cases hkk : k0 = k <;> simp [hkk, ih]

theorem hasKey_eraseSchema {o : Obj} {k : String} (hk : k ≠ "$schema") :
    hasKey (eraseSchema o) k = hasKey o k := by
  simp [hasKey, lookupKey_eraseSchema hk]

theorem not_relevant_of_schema_head {d : RawDiff} {t : List String}
    (h : d.path = "$schema" :: t) : isRelevantDiff d = false := by
  simp [isRelevantDiff, h]

theorem filter_diffFieldsL_erase (A : Obj) :
    ∀ B : Obj,
      (diffFieldsL [] B A).filter isRelevantDiff
        = (diffFieldsL [] (eraseSchema B) (eraseSchema A)).filter isRelevantDiff
  | [] => rfl
  | (k, lv) :: rest => by
      have hstep : diffFieldsL [] ((k, lv) :: rest) A
          = (match lookupKey A k with
             | none => [.D ([] ++ [k]) lv]
             | some rv => diffVal ([] ++ [k]) lv rv)
            ++ diffFieldsL [] rest A := rfl
      by_cases hk : k = "$schema"
      · subst hk
        have hcontrib :
            ((match lookupKey A "$schema" with
              | none => [.D ([] ++ ["$schema"]) lv]
              | some rv => diffVal ([] ++ ["$schema"]) lv rv) :
                List RawDiff).filter isRelevantDiff = [] := by
          cases hl : lookupKey A "$schema" with
          | none => simp [isRelevantDiff, RawDiff.path]
          | some rv =>
              rw [List.filter_eq_nil_iff]
              intro d hd
              obtain ⟨t, ht⟩ := diffVal_path_ext ([] ++ ["$schema"]) lv rv d hd
              simp [not_relevant_of_schema_head (t := t) (by simpa using ht)]
        have herase : eraseSchema (("$schema", lv) :: rest) = eraseSchema rest := by
          simp [eraseSchema, List.filter_cons]
        rw [hstep, List.filter_append, hcontrib, herase, List.nil_append]
        exact filter_diffFieldsL_erase A rest
      · have herase : eraseSchema ((k, lv) :: rest) = (k, lv) :: eraseSchema rest := by
          simp [eraseSchema, List.filter_cons, hk]
        have hstep2 : diffFieldsL [] ((k, lv) :: eraseSchema rest) (eraseSchema A)
            = (match lookupKey (eraseSchema A) k with
               | none => [.D ([] ++ [k]) lv]
               | some rv => diffVal ([] ++ [k]) lv rv)
              ++ diffFieldsL [] (eraseSchema rest) (eraseSchema A) := rfl
        rw [hstep, herase, hstep2, lookupKey_eraseSchema hk,
            List.filter_append, List.filter_append,
            filter_diffFieldsL_erase A rest]

theorem diffAdds_cons (pfx : List String) (B : Obj) (k : String) (v : JVal)
    (restA : Obj) :
    diffAdds pfx B ((k, v) :: restA)
      = (if hasKey B k then [] else [.N (pfx ++ [k]) v]) ++ diffAdds pfx B restA := by
  by_cases hb : hasKey B k <;> simp [diffAdds, List.filter_cons, hb]

theorem filter_diffAdds_erase (B : Obj) :
    ∀ A : Obj,
      (diffAdds [] B A).filter isRelevantDiff
        = (diffAdds [] (eraseSchema B) (eraseSchema A)).filter isRelevantDiff
  | [] => rfl
  | (k, v) :: restA => by
      have ih := filter_diffAdds_erase B restA
      by_cases hk : k = "$schema"
      · subst hk
        have herase : eraseSchema (("$schema", v) :: restA) = eraseSchema restA := by
          simp [eraseSchema, List.filter_cons]
        rw [diffAdds_cons, herase, List.filter_append, ← ih]
        by_cases hb : hasKey B "$schema" <;>
          simp [hb, isRelevantDiff, RawDiff.path]
      · have herase : eraseSchema ((k, v) :: restA) = (k, v) :: eraseSchema restA := by
          simp [eraseSchema, List.filter_cons, hk]
        rw [diffAdds_cons, herase, diffAdds_cons, hasKey_eraseSchema hk,
            List.filter_append, List.filter_append, ih]

theorem filter_diffFieldsL_agree (A : Obj) :
    ∀ lfs : Obj,
      (∀ p ∈ lfs, p.1 = "$schema" ∨
        (lookupKey A p.1 = some p.2 ∧ jvalWF p.2 = true)) →
      (diffFieldsL [] lfs A).filter isRelevantDiff = []
  | [], _ => rfl
  | (k, lv) :: rest, h => by
      have hstep : diffFieldsL [] ((k, lv) :: rest) A
          = (match lookupKey A k with
             | none => [.D ([] ++ [k]) lv]
             | some rv => diffVal ([] ++ [k]) lv rv)
            ++ diffFieldsL [] rest A := rfl
      rw [hstep, List.filter_append,
          filter_diffFieldsL_agree A rest
            (fun p hp => h p (List.mem_cons_of_mem _ hp)),
          List.append_nil]
      rcases h (k, lv) (List.mem_cons_self _ _) with hks | ⟨hlook, hwf⟩
      · have hk : k = "$schema" := hks
        subst hk
        cases hl : lookupKey A "$schema" with
        | none => simp [isRelevantDiff, RawDiff.path]
        | some rv =>
            rw [List.filter_eq_nil_iff]
            intro d hd
            obtain ⟨t, ht⟩ := diffVal_path_ext ([] ++ ["$schema"]) lv rv d hd
            simp only [List.nil_append, List.cons_append] at ht
            simp [isRelevantDiff, ht]
      · have hlk : lookupKey A k = some lv := hlook
        simp [hlk, diffVal_self [k] lv hwf]

theorem filter_diffAdds_agree (B A : Obj)
    (heq : ∀ k, k ≠ "$schema" → lookupKey A k = lookupKey B k) :
    (diffAdds [] B A).filter isRelevantDiff = [] := by
  rw [List.filter_eq_nil_iff]
  intro d hd
  rw [diffAdds] at hd
  obtain ⟨p, hp, rfl⟩ := List.mem_map.mp hd
  have hpA := List.mem_filter.mp hp
  by_cases hk : p.1 = "$schema"
  · simp [isRelevantDiff, RawDiff.path, hk]
  · exfalso
    have h1 : ¬ hasKey B p.1 := by simpa using hpA.2
    have h2 : lookupKey A p.1 = none := by
      rw [heq p.1 hk]
      exact lookupKey_eq_none_of_not_hasKey h1
    have h3 := hasKey_of_mem hpA.1
    simp [hasKey, h2] at h3

/-- Claim C7: the top-level `$schema` key is never reported by `diffConfigs`,
whatever the change type — removing the `$schema` entries from both objects
leaves the output unchanged — and consequently two well-formed objects that
agree on every key other than `$schema` diff to the empty list. -/
theorem diffConfigs_schema_suppression (A B : Obj) :
    diffConfigs A B = diffConfigs (eraseSchema A) (eraseSchema B) ∧
      (jfieldsWF A = true → jfieldsWF B = true →
        (∀ k, k ≠ "$schema" → lookupKey A k = lookupKey B k) →
        diffConfigs A B = []) := by
  constructor
  · rw [diffConfigs, diffConfigs, deepDiff, deepDiff,
        List.filter_append, List.filter_append,
        filter_diffFieldsL_erase A B, filter_diffAdds_erase B A]
  · intro hA hB heq
    have hyp : ∀ p ∈ B, p.1 = "$schema" ∨
        (lookupKey A p.1 = some p.2 ∧ jvalWF p.2 = true) := by
      intro p hp
      by_cases hk : p.1 = "$schema"
      · exact Or.inl hk
      · have hs := lookup_self_of_wf hB p hp
        exact Or.inr ⟨by rw [heq p.1 hk, hs.1], hs.2⟩
    rw [diffConfigs, deepDiff, List.filter_append,
        filter_diffFieldsL_agree A B hyp, filter_diffAdds_agree B A heq]
    rfl

/-- Witness for C7 at concrete inputs: two objects that differ only in their
top-level `$schema` strings diff to the empty list. -/
theorem diffConfigs_schema_suppression_witness :
    jfieldsWF [("$schema", JVal.str "a"), ("x", .num 1)] = true ∧
      jfieldsWF [("$schema", JVal.str "b"), ("x", .num 1)] = true ∧
      diffConfigs [("$schema", JVal.str "a"), ("x", .num 1)]
        [("$schema", JVal.str "b"), ("x", .num 1)] = [] :=
  ⟨by decide, by decide,
   (diffConfigs_schema_suppression
       [("$schema", JVal.str "a"), ("x", .num 1)]
       [("$schema", JVal.str "b"), ("x", .num 1)]).2
     (by decide) (by decide)
     (by
       intro k hk
       have hne : ¬ ("$schema" = k) := fun h => hk h.symm
       simp [lookupKey, hne])⟩

theorem intercalate_singleton (s x : String) : String.intercalate s [x] = x := by
  simp [String.intercalate, String.intercalate.go]

theorem mapN_filter_convert (l : Obj) :
    ((l.map (fun p => RawDiff.N [p.1] p.2)).filter isRelevantDiff).map convertDiff
      = (l.filter (fun p => p.1 != "$schema")).map
          (fun p =>
            { path := "/" ++ p.1, type := .add, newValue := some p.2 : FieldDiff }) := by
  induction l with
  | nil => rfl
  | cons p rest ih =>
    obtain ⟨k, v⟩ := p
    by_cases hk : k = "$schema"
    · subst hk
      simpa [List.filter_cons, isRelevantDiff, RawDiff.path] using ih
    · simpa [List.filter_cons, isRelevantDiff, RawDiff.path, hk, convertDiff,
             joinPath, intercalate_singleton] using ih

/-- Claim C6 (amended): diffing a local object against the empty remote
object reports exactly one `add` per top-level key of the local object other
than `$schema`, in key order, with `newValue` the key's value; a `$schema`
key yields no diff, and there are no `remove` or `change` entries. -/
theorem diffConfigs_against_empty (localObj : Obj) :
    diffConfigs localObj []
      = (localObj.filter (fun p => p.1 != "$schema")).map
          (fun p =>
            { path := "/" ++ p.1, type := .add, newValue := some p.2 : FieldDiff }) := by
  have h2 : deepDiff [] localObj = localObj.map (fun p => RawDiff.N [p.1] p.2) := by
    rw [deepDiff, diffAdds]
    have h1 : localObj.filter (fun p => !hasKey [] p.1) = localObj := by
      simp [hasKey, lookupKey]
    rw [h1, show diffFieldsL [] [] localObj = [] from rfl, List.nil_append]
    simp only [List.nil_append]
  rw [diffConfigs, h2, mapN_filter_convert]

/-- Counterexample to C6 as stated: a local object whose only top-level key
is `$schema` produces no `add` diff at all, not one per top-level key. -/
theorem c6_counterexample :
    diffConfigs [("$schema", JVal.str "s")] [] = [] ∧
      ¬ ((diffConfigs [("$schema", JVal.str "s")] []).length
          = ([("$schema", JVal.str "s")] : Obj).length) := by
  exact ⟨by decide, by decide⟩

/-- Claim C1 (amended): the worked example with the `id` field present in the
merged local object (the loader takes the match key from `merged.id`, so a
config matched by id carries it): matching identical remote → `unchanged`;
no remote → `create` with three `add` diffs (`/id`, `/a`, `/b`); remote with
`b:3` → `update` with exactly one `change` diff at `/b` (old 3, new 2). -/
theorem generateConfigPlan_worked_example :
    generateConfigPlan
        { name := "checkout", id := some "x",
          merged := [("id", .str "x"), ("a", .num 1), ("b", .num 2)] }
        [("x", [("id", .str "x"), ("a", .num 1), ("b", .num 2)])]
      = { name := "checkout", status := .unchanged, diffs := [] } ∧
    generateConfigPlan
        { name := "checkout", id := some "x",
          merged := [("id", .str "x"), ("a", .num 1), ("b", .num 2)] }
        []
      = { name := "checkout", status := .create,
          diffs := [{ path := "/id", type := .add, newValue := some (.str "x") },
                    { path := "/a", type := .add, newValue := some (.num 1) },
                    { path := "/b", type := .add, newValue := some (.num 2) }] } ∧
    generateConfigPlan
        { name := "checkout", id := some "x",
          merged := [("id", .str "x"), ("a", .num 1), ("b", .num 2)] }
        [("x", [("id", .str "x"), ("a", .num 1), ("b", .num 3)])]
      = { name := "checkout", status := .update,
          diffs := [{ path := "/b", type := .change,
                      oldValue := some (.num 3), newValue := some (.num 2) }] } :=
  ⟨by decide, by decide, by decide⟩

/-- Counterexample to C1 as stated: with the local configuration literally
`{a:1,b:2}` and the matching remote `{id:x,a:1,b:2}`, the status is `update`
(with a `remove` diff for `/id`), not `unchanged`. -/
theorem c1_counterexample :
    (generateConfigPlan
        { name := "checkout", id := some "x",
          merged := [("a", .num 1), ("b", .num 2)] }
        [("x", [("id", .str "x"), ("a", .num 1), ("b", .num 2)])]).status
      ≠ PlanStatus.unchanged ∧
    generateConfigPlan
        { name := "checkout", id := some "x",
          merged := [("a", .num 1), ("b", .num 2)] }
        [("x", [("id", .str "x"), ("a", .num 1), ("b", .num 2)])]
      = { name := "checkout", status := .update,
          diffs := [{ path := "/id", type := .remove,
                      oldValue := some (.str "x") }] } :=
  ⟨by decide, by decide⟩

/-- Counterexample to C4 as stated: a local configuration with an empty
merged object and no remote counterpart gets status `create` with an empty
diff list, so `status = unchanged ⇔ diffs = []` fails. -/
theorem c4_counterexample :
    (generateConfigPlan { name := "empty", id := none, merged := [] } []).status
        = PlanStatus.create ∧
      (generateConfigPlan { name := "empty", id := none, merged := [] } []).diffs = [] ∧
      ¬ ((generateConfigPlan { name := "empty", id := none, merged := [] } []).status
            = PlanStatus.unchanged
          ↔ (generateConfigPlan { name := "empty", id := none, merged := [] } []).diffs
              = []) :=
  ⟨by decide, by decide, by decide⟩

/-- Claim C4 (amended): for every config plan, `unchanged` implies an empty
diff list; when a remote object was found, `unchanged ⇔ diffs = []`; and
`create` holds iff no remote object was found, in which case the diffs are
computed against the empty object (empty-diff creates break the unqualified
iff, per the counterexample). -/
theorem generateConfigPlan_status_invariants (lc : ChannelConfig)
    (rcs : List (String × Obj)) :
    ((generateConfigPlan lc rcs).status = .unchanged →
        (generateConfigPlan lc rcs).diffs = []) ∧
      (mapGet rcs (lc.id.getD lc.name) ≠ none →
        ((generateConfigPlan lc rcs).status = .unchanged
          ↔ (generateConfigPlan lc rcs).diffs = [])) ∧
      ((generateConfigPlan lc rcs).status = .create
        ↔ mapGet rcs (lc.id.getD lc.name) = none) ∧
      ((generateConfigPlan lc rcs).status = .create →
        (generateConfigPlan lc rcs).diffs = diffConfigs lc.merged []) := by
  cases hm : mapGet rcs (lc.id.getD lc.name) with
  | none => simp [generateConfigPlan, hm]
  | some r =>
      by_cases hd : (diffConfigs lc.merged r).isEmpty <;>
        simp_all [generateConfigPlan, hm, hd, List.isEmpty_iff]

/-- Witness for the amended C4 at concrete inputs (a remote match exists, so
the restored iff applies). -/
theorem generateConfigPlan_status_invariants_witness :
    mapGet [("c", [("a", JVal.num 1)])] "c" ≠ none ∧
      ((generateConfigPlan { name := "c", id := none, merged := [("a", .num 1)] }
            [("c", [("a", JVal.num 1)])]).status = .unchanged
        ↔ (generateConfigPlan { name := "c", id := none, merged := [("a", .num 1)] }
            [("c", [("a", JVal.num 1)])]).diffs = []) :=
  ⟨by decide,
   (generateConfigPlan_status_invariants
       { name := "c", id := none, merged := [("a", .num 1)] }
       [("c", [("a", JVal.num 1)])]).2.1 (by decide)⟩

/-- JavaScript truthiness of a property read: `undefined` (absent), `null`,
`false`, `0` and the empty string are falsy. -/
def jsTruthy : Option JVal → Bool
  | none => false
  | some .null => false
  | some (.bool b) => b
  | some (.num n) => n != 0
  | some (.str s) => s != ""
  | some (.arr _) => true
  | some (.obj _) => true

/-- `schemasCompatible` from `merge/hierarchy.ts`: read `$schema` from both
sides; `if (!rootSchema || !channelSchema) return true;` — a falsy read on
either side is compatible — otherwise the two values must be strictly equal
(strict equality coincides with structural equality on the primitive string
values this field carries). -/
def schemasCompatible (rootConfig channelConfig : Obj) : Bool :=
  let rootSchema := lookupKey rootConfig "$schema"
  let channelSchema := lookupKey channelConfig "$schema"
  if !jsTruthy rootSchema || !jsTruthy channelSchema then true
  else rootSchema == channelSchema

/-- Counterexample to C8 as stated: both objects carry a `$schema` field with
different values, but because one of them is the empty string (falsy in
JavaScript) the code reports the schemas as compatible. -/
theorem c8_counterexample :
    schemasCompatible [("$schema", JVal.str "")] [("$schema", JVal.str "x")] = true ∧
      (lookupKey [("$schema", JVal.str "")] "$schema").isSome = true ∧
      (lookupKey [("$schema", JVal.str "x")] "$schema").isSome = true ∧
      lookupKey [("$schema", JVal.str "")] "$schema"
        ≠ lookupKey [("$schema", JVal.str "x")] "$schema" :=
  ⟨by decide, by decide, by decide, by decide⟩

/-- Claim C8 (amended): `schemasCompatible` is true iff at least one side's
`$schema` read is falsy (absent, or present as null, `false`, `0` or the
empty string) or the two read values are equal; in particular, when both
sides carry non-empty `$schema` strings, compatibility is exactly string
equality, so any two distinct non-empty `$schema` strings are incompatible. -/
theorem schemasCompatible_iff (root channel : Obj) :
    (schemasCompatible root channel = true ↔
      (jsTruthy (lookupKey root "$schema") = false ∨
       jsTruthy (lookupKey channel "$schema") = false ∨
       lookupKey root "$schema" = lookupKey channel "$schema")) ∧
    (∀ s t : String, s ≠ "" → t ≠ "" →
      lookupKey root "$schema" = some (.str s) →
      lookupKey channel "$schema" = some (.str t) →
      (schemasCompatible root channel = true ↔ s = t)) := by
  constructor
  · by_cases h1 : jsTruthy (lookupKey root "$schema") <;>
      by_cases h2 : jsTruthy (lookupKey channel "$schema") <;>
      simp [schemasCompatible, h1, h2]
  · intro s t hs ht hr hc
    simp [schemasCompatible, hr, hc, jsTruthy, hs, ht]

/-- Witness for the amended C8 at concrete inputs: two distinct non-empty
`$schema` strings are incompatible. -/
theorem schemasCompatible_iff_witness :
    ("a" : String) ≠ "" ∧ ("b" : String) ≠ "" ∧
      lookupKey [("$schema", JVal.str "a")] "$schema" = some (.str "a") ∧
      lookupKey [("$schema", JVal.str "b")] "$schema" = some (.str "b") ∧
      (schemasCompatible [("$schema", JVal.str "a")] [("$schema", JVal.str "b")] = true
        ↔ ("a" : String) = "b") :=
  ⟨by decide, by decide, by decide, by decide,
   (schemasCompatible_iff [("$schema", JVal.str "a")] [("$schema", JVal.str "b")]).2
     "a" "b" (by decide) (by decide) (by decide) (by decide)⟩

/-- Claim C3 (the code's behavior at the decisive inputs): a 404 `ApiError`
from the per-channel config listing is treated as "no remote configs" and
planning continues; a non-404 `ApiError` is fatal; a non-`ApiError` failure
of the same fetch is silently swallowed and planning continues (this is the
divergence from the claim); and a failure of the initial remote channel
listing is always fatal, whatever its kind. -/
theorem c3_fetch_error_behavior :
    generateChannelPlan { name := "se", configs := [] } true
        (.error (.api "not found" 404))
      = .ok { channel := "se", existsRemotely := true, configs := [] } ∧
    generateChannelPlan { name := "se", configs := [] } true
        (.error (.api "boom" 500))
      = .error "Failed to list configs for channel 'se': boom" ∧
    generateChannelPlan { name := "se", configs := [] } true
        (.error (.other "network failure"))
      = .ok { channel := "se", existsRemotely := true, configs := [] } ∧
    generatePlanCore [{ name := "se", configs := [] }] { channel := none }
        (.error (.api "boom" 500)) (fun _ => .ok [])
      = .error "Failed to list remote channels: boom" ∧
    generatePlanCore [{ name := "se", configs := [] }] { channel := none }
        (.error (.other "network failure")) (fun _ => .ok [])
      = .error "network failure" :=
  ⟨rfl, rfl, rfl, rfl, rfl⟩

/-- The status values of `ConfigComparison` (`compare/types.ts`). -/
inductive CompareStatus where
  | identical : CompareStatus
  | different : CompareStatus
  | only_in_a : CompareStatus
  | only_in_b : CompareStatus
deriving DecidableEq

/-- `ConfigComparison` from `compare/types.ts`. -/
structure ConfigComparison where
  name : String
  status : CompareStatus
  diffs : List FieldDiff
  configA : Option Obj := none
  configB : Option Obj := none
deriving DecidableEq

/-- `CompareSummary` from `compare/types.ts`. -/
structure CompareSummary where
  identical : Nat
  different : Nat
  onlyInA : Nat
  onlyInB : Nat
deriving DecidableEq

/-- `CompareResult` from `compare/types.ts`, without the channel-name and
timestamp strings (copied verbatim from the arguments and the clock). -/
structure CompareResult where
  configs : List ConfigComparison
  summary : CompareSummary
deriving DecidableEq

/-- `compareConfig` from `compare/service.ts`: only-in-A, only-in-B, else
diff both sides — empty diff list means `identical`, otherwise `different`.
Two absent sides cannot arise for a name drawn from the union of keys; the
JavaScript code would then diff `undefined` against `undefined`, which
yields no differences, so the model mirrors that as `identical`. -/
def compareConfig (name : String) (configA configB : Option Obj) :
    ConfigComparison :=
  match configA, configB with
  | some a, none =>
      { name := name, status := .only_in_a, diffs := [], configA := some a }
  | none, some b =>
      { name := name, status := .only_in_b, diffs := [], configB := some b }
  | some a, some b =>
      let diffs := diffConfigs a b
      if diffs.isEmpty then
        { name := name, status := .identical, diffs := [],
          configA := some a, configB := some b }
      else
        { name := name, status := .different, diffs := diffs,
          configA := some a, configB := some b }
  | none, none => { name := name, status := .identical, diffs := [] }

/-- `calculateSummary` from `compare/service.ts` (its `_totalA`/`_totalB`
parameters are unused in the source and omitted here): count the emitted
comparisons by status; if fewer comparisons than unique names were emitted,
recompute `identical` as `totalUnique − comparisons.length`. -/
def calculateCompareSummary (comparisons : List ConfigComparison)
    (totalUnique : Nat) : CompareSummary :=
  let identical0 := comparisons.countP (fun c => c.status == .identical)
  let different := comparisons.countP (fun c => c.status == .different)
  let onlyInA := comparisons.countP (fun c => c.status == .only_in_a)
  let onlyInB := comparisons.countP (fun c => c.status == .only_in_b)
  let identical :=
    if comparisons.length < totalUnique then totalUnique - comparisons.length
    else identical0
  { identical := identical, different := different,
    onlyInA := onlyInA, onlyInB := onlyInB }

/-- The comparison core of `compareChannels` from `compare/service.ts`, after
the two channels have been loaded into name-keyed config maps: walk the
union of names, skip `identical` entries when `differencesOnly` is set, and
compute the summary over the emitted list. -/
def compareChannelsCore (configsA configsB : List (String × Obj))
    (differencesOnly : Bool) : CompareResult :=
  let allConfigNames := dedupFirst (configsA.map (·.1) ++ configsB.map (·.1))
  let comparisons :=
    (allConfigNames.map
        (fun n => compareConfig n (mapGet configsA n) (mapGet configsB n))).filter
      (fun c => !(differencesOnly && c.status == .identical))
  { configs := comparisons,
    summary := calculateCompareSummary comparisons allConfigNames.length }

/-- Claim C9: with `differencesOnly` set, every `identical` configuration is
omitted from the emitted list, yet `summary.identical` equals the true
number of identical configurations over the union of names, and the other
summary counts equal the counts over the emitted entries. -/
theorem compareChannels_differencesOnly (configsA configsB : List (String × Obj)) :
    (∀ c ∈ (compareChannelsCore configsA configsB true).configs,
        c.status ≠ .identical) ∧
    (compareChannelsCore configsA configsB true).summary.identical
      = ((dedupFirst (configsA.map (·.1) ++ configsB.map (·.1))).map
            (fun n => compareConfig n (mapGet configsA n) (mapGet configsB n))).countP
          (fun c => c.status == .identical) ∧
    (compareChannelsCore configsA configsB true).summary.different
      = ((compareChannelsCore configsA configsB true).configs).countP
          (fun c => c.status == .different) ∧
    (compareChannelsCore configsA configsB true).summary.onlyInA
      = ((compareChannelsCore configsA configsB true).configs).countP
          (fun c => c.status == .only_in_a) ∧
    (compareChannelsCore configsA configsB true).summary.onlyInB
      = ((compareChannelsCore configsA configsB true).configs).countP
          (fun c => c.status == .only_in_b) := by
  have hL :
      (compareChannelsCore configsA configsB true).configs
        = ((dedupFirst (configsA.map (·.1) ++ configsB.map (·.1))).map
              (fun n => compareConfig n (mapGet configsA n) (mapGet configsB n))).filter
            (fun c => !(c.status == .identical)) := by
    simp [compareChannelsCore]
  refine ⟨?_, ?_, by simp [compareChannelsCore, calculateCompareSummary],
          by simp [compareChannelsCore, calculateCompareSummary],
          by simp [compareChannelsCore, calculateCompareSummary]⟩
  · intro c hc
    rw [hL] at hc
    have := (List.mem_filter.mp hc).2
    simpa using this
  · set L := (dedupFirst (configsA.map (·.1) ++ configsB.map (·.1))).map
        (fun n => compareConfig n (mapGet configsA n) (mapGet configsB n)) with hLdef
    have hconf :
        (compareChannelsCore configsA configsB true).configs
          = L.filter (fun c => !(c.status == .identical)) := hL
    have hsum :
        (compareChannelsCore configsA configsB true).summary.identical
          = (if (L.filter (fun c => !(c.status == .identical))).length
                < (dedupFirst (configsA.map (·.1) ++ configsB.map (·.1))).length
             then (dedupFirst (configsA.map (·.1) ++ configsB.map (·.1))).length
                  - (L.filter (fun c => !(c.status == .identical))).length
             else (L.filter (fun c => !(c.status == .identical))).countP
                    (fun c => c.status == .identical)) := by
      simp [compareChannelsCore, calculateCompareSummary, hLdef]
    have hlen : (dedupFirst (configsA.map (·.1) ++ configsB.map (·.1))).length
        = L.length := by simp [hLdef]
    have hsplit : L.length
        = L.countP (fun c => c.status == .identical)
          + (L.filter (fun c => !(c.status == .identical))).length := by
      rw [← List.countP_eq_length_filter]
      have h := List.length_eq_countP_add_countP
        (p := fun c => c.status == CompareStatus.identical) (l := L)
      simpa using h
    have hzero : (L.filter (fun c => !(c.status == .identical))).countP
        (fun c => c.status == .identical) = 0 := by
      rw [List.countP_eq_zero]
      intro c hc
      have := (List.mem_filter.mp hc).2
      simpa using this
    rw [hsum, hlen]
    by_cases hlt : (L.filter (fun c => !(c.status == .identical))).length < L.length
    · rw [if_pos hlt]
      omega
    · rw [if_neg hlt, hzero]
      omega

theorem mem_dedupAcc : ∀ (seen l : List String) (x : String),
    x ∈ dedupAcc seen l ↔ (x ∈ l ∧ x ∉ seen)
  | seen, [], x => by simp [dedupAcc]
  | seen, y :: l, x => by
      by_cases hy : seen.contains y
      · have hy' : y ∈ seen := by simpa using hy
        rw [dedupAcc, if_pos hy, mem_dedupAcc seen l]
        constructor
        · rintro ⟨h1, h2⟩
          exact ⟨List.mem_cons_of_mem _ h1, h2⟩
        · rintro ⟨h1, h2⟩
          rcases List.mem_cons.mp h1 with rfl | h1
          · exact absurd hy' h2
          · exact ⟨h1, h2⟩
      · have hy' : y ∉ seen := by simpa using hy
        rw [dedupAcc, if_neg hy]
        simp only [List.mem_cons, mem_dedupAcc (y :: seen) l]
        constructor
        · rintro (rfl | ⟨h1, h2⟩)
          · exact ⟨Or.inl rfl, hy'⟩
          · exact ⟨Or.inr h1, fun hx => h2 (Or.inr hx)⟩
        · rintro ⟨h1 | h1, h2⟩
          · exact Or.inl h1
          · by_cases hxy : x = y
            · exact Or.inl hxy
            · exact Or.inr ⟨h1, fun hx => hx.elim hxy h2⟩

theorem dedupAcc_nodup : ∀ (seen l : List String), (dedupAcc seen l).Nodup
  | seen, [] => List.nodup_nil
  | seen, y :: l => by
      by_cases hy : seen.contains y
      · rw [dedupAcc, if_pos hy]
        exact dedupAcc_nodup seen l
      · rw [dedupAcc, if_neg hy, List.nodup_cons]
        refine ⟨fun hmem => ?_, dedupAcc_nodup (y :: seen) l⟩
        exact ((mem_dedupAcc (y :: seen) l y).mp hmem).2 (List.mem_cons_self _ _)

theorem dedupFirst_nodup (l : List String) : (dedupFirst l).Nodup :=
  dedupAcc_nodup [] l

theorem mem_dedupFirst (l : List String) (x : String) :
    x ∈ dedupFirst l ↔ x ∈ l := by
  rw [dedupFirst, mem_dedupAcc]
  simp

theorem dedupFirst_toFinset (l : List String) :
    (dedupFirst l).toFinset = l.toFinset := by
  ext x
  simp [mem_dedupFirst]

theorem status_partition (l : List ConfigPlan) :
    l.countP (fun c => c.status == PlanStatus.create)
        + l.countP (fun c => c.status == PlanStatus.update)
        + l.countP (fun c => c.status == PlanStatus.unchanged)
      = l.length := by
  induction l with
  | nil => rfl
  | cons c rest ih =>
      cases hc : c.status <;> simp [List.countP_cons, hc] <;> omega

theorem generateChannelPlan_ok_channel {ch : Channel} {e : Bool}
    {fetched : Except FetchError (List RemoteConfig)} {p : ChannelPlan}
    (h : generateChannelPlan ch e fetched = .ok p) : p.channel = ch.name := by
  rw [generateChannelPlan] at h
  cases hre : fetchRemoteConfigsE ch.name e fetched with
  | error msg => rw [hre] at h; cases h
  | ok rcs =>
      rw [hre] at h
      cases h
      rfl

theorem traverse_ok_map {rc : List String}
    {f : String → Except FetchError (List RemoteConfig)} :
    ∀ (chs : List Channel) (ps : List ChannelPlan),
      traverseChannelPlans rc f chs = .ok ps →
      ps.map (·.channel) = chs.map (·.name)
  | [], ps, h => by
      cases h
      rfl
  | ch :: rest, ps, h => by
      rw [traverseChannelPlans] at h
      cases h1 : generateChannelPlan ch (rc.contains ch.name) (f ch.name) with
      | error e => rw [h1] at h; cases h
      | ok p =>
          rw [h1] at h
          cases h2 : traverseChannelPlans rc f rest with
          | error e => rw [h2] at h; cases h
          | ok ps' =>
              rw [h2] at h
              cases h
              simp [generateChannelPlan_ok_channel h1, traverse_ok_map rest ps' h2]

theorem generatePlanCore_none_ok {channels0 : List Channel} {names : List String}
    {fetchConfigs : String → Except FetchError (List RemoteConfig)} {plan : Plan}
    (h : generatePlanCore channels0 { channel := none } (.ok names) fetchConfigs
          = .ok plan) :
    ∃ cps, traverseChannelPlans (dedupFirst names) fetchConfigs channels0 = .ok cps ∧
      plan = { channels := cps,
               summary := calculateSummary cps (dedupFirst names) channels0 } := by
  simp only [generatePlanCore] at h
  cases ht : traverseChannelPlans (dedupFirst names) fetchConfigs channels0 with
  | error e => rw [ht] at h; cases h
  | ok cps =>
      rw [ht] at h
      cases h
      exact ⟨cps, rfl, rfl⟩

theorem filter_names_toFinset (names : List String) (locals : List String) :
    ((dedupFirst names).filter (fun n => !locals.contains n)).length
      = (names.toFinset \ locals.toFinset).card := by
  have hnd : ((dedupFirst names).filter (fun n => !locals.contains n)).Nodup :=
    (dedupFirst_nodup names).filter _
  rw [← List.toFinset_card_of_nodup hnd]
  congr 1
  rw [List.toFinset_filter, dedupFirst_toFinset]
  ext n
  simp [Finset.mem_filter, Finset.mem_sdiff, List.mem_toFinset]

/-- Claim C5: for a plan produced without the single-channel option,
`creates + updates + unchanged` equals the total number of config plans
across all channel plans; `unmanaged` equals the number of distinct remote
channel names with no local channel of that name; and every emitted channel
plan carries the name of a local channel (remote-only channels never appear). -/
theorem generatePlan_summary_invariants (channels0 : List Channel)
    (names : List String)
    (fetchConfigs : String → Except FetchError (List RemoteConfig))
    (plan : Plan)
    (h : generatePlanCore channels0 { channel := none } (.ok names) fetchConfigs
          = .ok plan) :
    plan.summary.creates + plan.summary.updates + plan.summary.unchanged
        = (plan.channels.map (fun ch => ch.configs.length)).sum ∧
      plan.summary.unmanaged
        = (names.toFinset \ ((channels0.map (·.name)).toFinset)).card ∧
      ∀ cp ∈ plan.channels, cp.channel ∈ channels0.map (·.name) := by
  obtain ⟨cps, ht, rfl⟩ := generatePlanCore_none_ok h
  refine ⟨?_, ?_, ?_⟩
  · simp only [calculateSummary]
    rw [status_partition]
    rw [List.length_flatten, List.map_map]
    rfl
  · simp only [calculateSummary]
    exact filter_names_toFinset names (channels0.map (·.name))
  · intro cp hcp
    have hm : cp.channel ∈ cps.map (·.channel) := List.mem_map_of_mem _ hcp
    rw [traverse_ok_map channels0 cps ht] at hm
    exact hm

/-- Witness for C5: local channels `se` and `no`, remote channels `se`, `no`
and `demo` — one unmanaged channel and no `demo` entry in the plan. -/
theorem generatePlan_summary_invariants_witness :
    (generatePlanCore
        [{ name := "se", configs := [] }, { name := "no", configs := [] }]
        { channel := none } (.ok ["se", "no", "demo"]) (fun _ => .ok [])
      = .ok { channels :=
                [{ channel := "se", existsRemotely := true, configs := [] },
                 { channel := "no", existsRemotely := true, configs := [] }],
              summary :=
                { creates := 0, updates := 0, unchanged := 0, unmanaged := 1 } }) ∧
    ∀ plan : Plan,
      generatePlanCore
          [{ name := "se", configs := [] }, { name := "no", configs := [] }]
          { channel := none } (.ok ["se", "no", "demo"]) (fun _ => .ok [])
        = .ok plan →
      plan.summary.creates + plan.summary.updates + plan.summary.unchanged
          = (plan.channels.map (fun ch => ch.configs.length)).sum ∧
        plan.summary.unmanaged
          = ((["se", "no", "demo"] : List String).toFinset
              \ ((([{ name := "se", configs := [] },
                     { name := "no", configs := [] }] : List Channel).map
                    (·.name)).toFinset)).card ∧
        ∀ cp ∈ plan.channels,
          cp.channel ∈ ([{ name := "se", configs := [] },
                         { name := "no", configs := [] }] : List Channel).map (·.name) :=
  ⟨rfl,
   fun plan hp =>
     generatePlan_summary_invariants
       [{ name := "se", configs := [] }, { name := "no", configs := [] }]
       ["se", "no", "demo"] (fun _ => .ok []) plan hp⟩

theorem filter_name_length_le_one :
    ∀ (l : List Channel) (X : String), (l.map (·.name)).Nodup →
      (l.filter (fun ch => ch.name = X)).length ≤ 1
  | [], X, _ => by simp
  | ch :: rest, X, h => by
      rw [List.map_cons, List.nodup_cons] at h
      by_cases hx : ch.name = X
      · have hrest : rest.filter (fun c => c.name = X) = [] := by
          rw [List.filter_eq_nil_iff]
          intro c hc
          simp only [decide_eq_true_eq]
          intro heq
          have hmem : c.name ∈ rest.map (·.name) := List.mem_map_of_mem (·.name) hc
          rw [heq, ← hx] at hmem
          exact h.1 hmem
        rw [List.filter_cons, if_pos (by simpa using hx), hrest]
        simp
      · rw [List.filter_cons, if_neg (by simpa using hx)]
        exact filter_name_length_le_one rest X h.2

theorem generatePlanCore_some_ok {channels0 : List Channel} {X : String}
    {names : List String}
    {fetchConfigs : String → Except FetchError (List RemoteConfig)} {plan : Plan}
    (h : generatePlanCore channels0 { channel := some X } (.ok names) fetchConfigs
          = .ok plan) :
    ∃ cps,
      (channels0.filter (fun ch => ch.name = X)).isEmpty = false ∧
      traverseChannelPlans (dedupFirst names) fetchConfigs
          (channels0.filter (fun ch => ch.name = X)) = .ok cps ∧
      plan = { channels := cps,
               summary := calculateSummary cps (dedupFirst names)
                   (channels0.filter (fun ch => ch.name = X)) } := by
  simp only [generatePlanCore] at h
  by_cases he : (channels0.filter (fun ch => ch.name = X)).isEmpty
  · simp [he] at h
  · simp only [Bool.not_eq_true] at he
    simp only [he, Bool.false_eq_true, if_false] at h
    cases ht : traverseChannelPlans (dedupFirst names) fetchConfigs
        (channels0.filter (fun ch => ch.name = X)) with
    | error e => rw [ht] at h; cases h
    | ok cps =>
        rw [ht] at h
        cases h
        exact ⟨cps, he, rfl, rfl⟩

/-- Claim C10: with the single-channel option set to `X`, the local channel
list is filtered to `X` before planning and before the unmanaged count, so
the plan has at most one channel plan (local channel names are distinct, as
they come from directories), every emitted channel plan is for `X`, and
`unmanaged` counts every distinct remote channel name other than `X` — even
remote channels that have a local counterpart excluded by the filter. -/
theorem generatePlan_single_channel (channels0 : List Channel) (X : String)
    (names : List String)
    (fetchConfigs : String → Except FetchError (List RemoteConfig)) (plan : Plan)
    (hnodup : (channels0.map (·.name)).Nodup)
    (h : generatePlanCore channels0 { channel := some X } (.ok names) fetchConfigs
          = .ok plan) :
    plan.channels.length ≤ 1 ∧
      (∀ cp ∈ plan.channels, cp.channel = X) ∧
      plan.summary.unmanaged = (names.toFinset.erase X).card := by
  obtain ⟨cps, hne, ht, rfl⟩ := generatePlanCore_some_ok h
  have hmap := traverse_ok_map (channels0.filter (fun ch => ch.name = X)) cps ht
  have hallX : ∀ n ∈ (channels0.filter (fun ch => ch.name = X)).map (·.name), n = X := by
    intro n hn
    obtain ⟨c, hc, rfl⟩ := List.mem_map.mp hn
    exact of_decide_eq_true (List.mem_filter.mp hc).2
  have hne' : channels0.filter (fun ch => ch.name = X) ≠ [] := by
    intro h0
    rw [h0] at hne
    simp at hne
  have hXmem : X ∈ (channels0.filter (fun ch => ch.name = X)).map (·.name) := by
    obtain ⟨c, hc⟩ := List.exists_mem_of_ne_nil _ hne'
    have hcX : c.name = X := of_decide_eq_true (List.mem_filter.mp hc).2
    have hmm := List.mem_map_of_mem (·.name) hc
    simpa [hcX] using hmm
  refine ⟨?_, ?_, ?_⟩
  · have hlen : cps.length = (channels0.filter (fun ch => ch.name = X)).length := by
      have := congrArg List.length hmap
      simpa using this
    simpa [hlen] using filter_name_length_le_one channels0 X hnodup
  · intro cp hcp
    have hm : cp.channel ∈ cps.map (·.channel) := List.mem_map_of_mem _ hcp
    rw [hmap] at hm
    exact hallX _ hm
  · simp only [calculateSummary]
    have hcontains : ∀ n,
        (((channels0.filter (fun ch => ch.name = X)).map (·.name)).contains n)
          = decide (n = X) := by
      intro n
      rw [Bool.eq_iff_iff]
      constructor
      · intro hc
        have hm : n ∈ (channels0.filter (fun ch => ch.name = X)).map (·.name) := by
          simpa using hc
        simpa using hallX n hm
      · intro hd
        have hx : n = X := by simpa using hd
        subst hx
        simpa using hXmem
    have hfilter :
        (dedupFirst names).filter
            (fun n => !((channels0.filter (fun ch => ch.name = X)).map (·.name)).contains n)
          = (dedupFirst names).filter (fun n => !decide (n = X)) :=
      List.filter_congr (fun n _ => by rw [hcontains n])
    rw [hfilter]
    have hnd := (dedupFirst_nodup names).filter (fun n => !decide (n = X))
    rw [← List.toFinset_card_of_nodup hnd, List.toFinset_filter, dedupFirst_toFinset]
    congr 1
    ext n
    simp [Finset.mem_erase, and_comm]

/-- Witness for C10: local channels `se` and `no`, option channel `se`,
remote channels `se`, `no` and `demo` — one channel plan, and `unmanaged`
counts both `no` (excluded by the filter despite its local counterpart) and
`demo`. -/
theorem generatePlan_single_channel_witness :
    ((([{ name := "se", configs := [] },
        { name := "no", configs := [] }] : List Channel).map (·.name)).Nodup) ∧
    (generatePlanCore
        [{ name := "se", configs := [] }, { name := "no", configs := [] }]
        { channel := some "se" } (.ok ["se", "no", "demo"]) (fun _ => .ok [])
      = .ok { channels := [{ channel := "se", existsRemotely := true, configs := [] }],
              summary :=
                { creates := 0, updates := 0, unchanged := 0, unmanaged := 2 } }) ∧
    (({ channels := [{ channel := "se", existsRemotely := true, configs := [] }],
        summary :=
          { creates := 0, updates := 0, unchanged := 0, unmanaged := 2 } } : Plan).channels.length ≤ 1 ∧
      (∀ cp ∈ ({ channels := [{ channel := "se", existsRemotely := true, configs := [] }],
                 summary :=
                   { creates := 0, updates := 0, unchanged := 0,
                     unmanaged := 2 } } : Plan).channels,
        cp.channel = "se") ∧
      ({ channels := [{ channel := "se", existsRemotely := true, configs := [] }],
         summary :=
           { creates := 0, updates := 0, unchanged := 0,
             unmanaged := 2 } } : Plan).summary.unmanaged
        = ((["se", "no", "demo"] : List String).toFinset.erase "se").card) :=
  ⟨by decide, rfl,
   generatePlan_single_channel
     [{ name := "se", configs := [] }, { name := "no", configs := [] }] "se"
     ["se", "no", "demo"] (fun _ => .ok [])
     { channels := [{ channel := "se", existsRemotely := true, configs := [] }],
       summary := { creates := 0, updates := 0, unchanged := 0, unmanaged := 2 } }
     (by decide) rfl⟩
